import Mathlib

/-!
Verification of the Market_Index dashboard (`market_streamlit_app.py`).

Values are modelled as exact rationals (the Python code computes in double
precision; the claims checked here concern exact structural facts — lengths,
positions, tags, order — and one exact regression on a perfectly linear
input, where the float computation agrees with the rational one).
Timestamps are modelled as integers counting days.
-/

/-- Provenance tag of a presentation row: the `"Type"` column of
`combined_df` (lines 155 and 157 of the source). -/
inductive RowType where
  | Actual : RowType
  | Forecast : RowType
deriving DecidableEq, Inhabited

/-- One row of the combined table: (timestamp, value, provenance tag). -/
structure Row where
  date : ℤ
  value : ℚ
  type : RowType
deriving DecidableEq, Inhabited

/-- A provider response as seen by `fetch_data` (line 20): either an exception
raised anywhere inside the `try` block (network failure, missing `Close`
column, ...), or a frame of rows each carrying an optional close value
(`none` models a missing/NaN close dropped by `dropna`). -/
inductive ProviderResult where
  | err : String → ProviderResult
  | ok : List (ℤ × Option ℚ) → ProviderResult

/-- Embedding of `fetch_data` (lines 16-32): the `except` branch returns an
empty series; an empty frame returns an empty series (lines 21-23); otherwise
the close column with nulls dropped is returned (line 25). The function is
total: no exception ever reaches the caller. -/
def fetch_data (r : ProviderResult) : List (ℤ × ℚ) :=
  match r with
  | ProviderResult.err _ => []
  | ProviderResult.ok rows =>
      if rows = [] then []
      else rows.filterMap (fun p => p.2.map (fun v => (p.1, v)))

/-- Embedding of `generate_dummy_data` (lines 34-39):
`pd.date_range(end=now, periods=days, freq="D")` gives the `days` consecutive
days ending at `now`, and `np.random.normal(10000, 1000, days)` draws `days`
values from the global NumPy RNG, modelled here as an ambient stream
`rng : ℕ → ℚ` (no seed is set anywhere in the source). -/
def generate_dummy_data (days : ℕ) (now : ℤ) (rng : ℕ → ℚ) : List (ℤ × ℚ) :=
  (List.range days).map (fun i => (now - ((days - 1 - i : ℕ) : ℤ), rng i))

/-- The data-selection branch of the orchestrator (lines 71-75): dummy data
when the checkbox is set, otherwise `fetch_data`. -/
def prepare_data (use_dummy : Bool) (days : ℕ) (now : ℤ) (rng : ℕ → ℚ)
    (provider : ProviderResult) : List (ℤ × ℚ) :=
  if use_dummy then generate_dummy_data days now rng else fetch_data provider

/-- Slope of `np.polyfit(x, values, 1)` with `x = 0, ..., n-1`, by the
least-squares normal equations (unique for `n ≥ 2` since the `x` are
distinct). -/
def ols_slope (n : ℕ) (values : List ℚ) : ℚ :=
  let xs := (List.range n).map (fun (i : ℕ) => (i : ℚ))
  let sx := xs.sum
  let sy := values.sum
  let sxx := (xs.map (fun x => x * x)).sum
  let sxy := ((xs.zip values).map (fun p => p.1 * p.2)).sum
  ((n : ℚ) * sxy - sx * sy) / ((n : ℚ) * sxx - sx * sx)

/-- Intercept of `np.polyfit(x, values, 1)` with `x = 0, ..., n-1`. -/
def ols_intercept (n : ℕ) (values : List ℚ) : ℚ :=
  (values.sum - ols_slope n values * ((List.range n).map (fun (i : ℕ) => (i : ℚ))).sum) / (n : ℚ)

/-- Embedding of `np.polyfit(x, values, 1)` as called on line 46 with
`x = np.arange(len(dates))`. It fails (raises, caught on line 51) when
`len(x) ≠ len(values)` (shape mismatch in `lstsq`), when `n = 0`
(`polyfit` raises `TypeError: expected non-empty vector for x`), and when
`n = 1`: there `x = [0]`, the column-norm scaling inside `polyfit` divides
the Vandermonde column `[0]` by its norm `0`, producing NaN, and
`lstsq` fails on the NaN matrix (`LinAlgError: SVD did not converge`).
For `n ≥ 2` it returns the unique least-squares line. -/
def polyfit1 (n : ℕ) (values : List ℚ) : Option (ℚ × ℚ) :=
  if n = values.length ∧ 2 ≤ n then some (ols_slope n values, ols_intercept n values)
  else none

/-- Evaluation of the degree-1 polynomial `np.polyval(coeffs, x)`
(coefficients highest degree first). -/
def polyval (c : ℚ × ℚ) (x : ℚ) : ℚ :=
  c.1 * x + c.2

/-- The quadruple returned by `fit_trend_line` on success (line 50):
`x = np.arange(n)`, the fitted line at the observed positions, the extended
positions `np.arange(n + forecast_days)`, and the line at the extended
positions (note: `trend_future` covers positions `0 .. n+forecast_days-1`,
overlapping the observed range). -/
structure FitResult where
  x : List ℕ
  trend_line : List ℚ
  x_future : List ℕ
  trend_future : List ℚ
deriving DecidableEq

/-- Embedding of `fit_trend_line` (lines 41-53). On any exception inside the
`try` block — in particular for fewer than 2 points, see `polyfit1` — the
Python returns `(None, None, None, None)`, modelled as `none`. -/
def fit_trend_line (dates : List ℤ) (values : List ℚ) (forecast_days : ℕ) :
    Option FitResult :=
  match polyfit1 dates.length values with
  | none => none
  | some c =>
      some { x := List.range dates.length
             trend_line := (List.range dates.length).map (fun (i : ℕ) => polyval c (i : ℚ))
             x_future := List.range (dates.length + forecast_days)
             trend_future :=
               (List.range (dates.length + forecast_days)).map (fun (i : ℕ) => polyval c (i : ℚ)) }

/-- Python's tail slice `l[-k:]` for `k ≥ 0`: all of `l` when `k = 0`
(since `l[-0:] = l[0:]`), otherwise the last `k` elements. -/
def tail_slice (l : List ℚ) (k : ℕ) : List ℚ :=
  if k = 0 then l else l.drop (l.length - k)

/-- The forecast values actually exposed in `forecast_df` (line 154):
`trend_future[-forecast_days:]`, the tail of the overlapping future array. -/
def forecast_values (dates : List ℤ) (values : List ℚ) (forecast_days : ℕ) :
    Option (List ℚ) :=
  (fit_trend_line dates values forecast_days).map
    (fun r => tail_slice r.trend_future forecast_days)

/-- Embedding of `future_dates` (line 120):
`[dates[0] + timedelta(days=i) for i in range(1, forecast_days + 1)]`,
where `dates` is the index of the already-reversed series, so `dates[0]`
is its first (most recent) timestamp. -/
def future_dates (dates : List ℤ) (forecast_days : ℕ) : List ℤ :=
  (List.range forecast_days).map (fun (i : ℕ) => dates.headI + ((i : ℤ) + 1))

/-- The timestamp `dates[0]` used to highlight and to anchor the forecast
(lines 108 and 120), after the unconditional reversal of line 91. -/
def latest_date (s : List (ℤ × ℚ)) : ℤ :=
  ((s.reverse).map Prod.fst).headI

/-- Embedding of lines 89-158 for the selected series `s` (as fetched,
oldest first): line 91 reverses it unconditionally, line 145 builds the
preview frame from the reversed data, and lines 152-158 append the forecast
rows (tagged `"Forecast"`) to the actual rows (tagged `"Actual"`). When the
fit failed (`trend_future is None`, line 152) no combined frame is built. -/
def combined_df (s : List (ℤ × ℚ)) (forecast_days : ℕ) : Option (List Row) :=
  match fit_trend_line (s.reverse.map Prod.fst) (s.reverse.map Prod.snd) forecast_days with
  | none => none
  | some r =>
      some ((s.reverse.map (fun p => Row.mk p.1 p.2 RowType.Actual))
        ++ (((future_dates (s.reverse.map Prod.fst) forecast_days).zip
              (tail_slice r.trend_future forecast_days)).map
            (fun p => Row.mk p.1 p.2 RowType.Forecast)))

/-- Embedding of `highlight_latest` (lines 147-148): a row of the preview
frame is highlighted exactly when its index equals `df.index[0]`, the
timestamp at position 0. -/
def highlight_latest (index : List ℤ) (rowName : ℤ) : Bool :=
  rowName == index.headI

/-- Outcome of the plot section (lines 103-137) and the forecast-table
condition (line 152), as a function of the fit result. -/
structure RenderOutcome where
  chart_rendered : Bool
  trend_plotted : Bool
  warning_shown : Bool
  halted : Bool
  forecast_shown : Bool
deriving DecidableEq

/-- Embedding of the plot section's control flow: the actual series is
plotted on line 105 before the fit is attempted; line 117 branches on
`trend_line is None` — warning on line 118, trend overlay on lines 120-123 —
and `st.pyplot` on line 131 runs either way; no `st.stop()` is reachable on
fit failure; line 152 shows the forecast table only when `trend_future` is
not `None`. -/
def render_plot (dates : List ℤ) (values : List ℚ) (forecast_days : ℕ) : RenderOutcome :=
  let fit := fit_trend_line dates values forecast_days
  { chart_rendered := true
    trend_plotted := fit.isSome
    warning_shown := fit.isNone
    halted := false
    forecast_shown := fit.isSome }

/-- Modelled from the spec: the `normalize` operation of the
SeriesTransformer is described in the spec (§4.2) but absent from the source
(`market_streamlit_app.py` contains no normalization code). Spec wording:
"linear min-max rescale to [0,1]; when max == min (flat series or single
point), every value maps to 0.5 (avoids division by zero); empty input
returns empty input unchanged." -/
def normalize_series (s : List ℚ) : List ℚ :=
  match s with
  | [] => []
  | v :: vs =>
      let m := vs.foldr min v
      let M := vs.foldr max v
      if M = m then (v :: vs).map (fun _ => (1 : ℚ) / 2)
      else (v :: vs).map (fun x => (x - m) / (M - m))

/-! ## Helper lemmas -/

/-- On matching lengths with at least two points, `fit_trend_line` succeeds
and returns the least-squares line evaluated on the observed and extended
position ranges. -/
theorem fit_trend_line_spec (dates : List ℤ) (values : List ℚ) (fd : ℕ)
    (hlen : dates.length = values.length) (h2 : 2 ≤ dates.length) :
    fit_trend_line dates values fd = some
      { x := List.range dates.length
        trend_line := (List.range dates.length).map
          (fun (i : ℕ) => polyval (ols_slope dates.length values, ols_intercept dates.length values) (i : ℚ))
        x_future := List.range (dates.length + fd)
        trend_future := (List.range (dates.length + fd)).map
          (fun (i : ℕ) => polyval (ols_slope dates.length values, ols_intercept dates.length values) (i : ℚ)) } := by
  unfold fit_trend_line polyfit1
  rw [if_pos ⟨hlen, h2⟩]

/-- In a strictly descending list every element is at most the head. -/
theorem le_headI_of_sorted_gt {l : List ℤ} (hs : l.Sorted (fun a b => b < a)) :
    ∀ x ∈ l, x ≤ l.headI := by
  cases l with
  | nil => intro x hx; cases hx
  | cons a t =>
      intro x hx
      rcases List.mem_cons.mp hx with h | h
      · exact le_of_eq h
      · exact le_of_lt ((List.pairwise_cons.mp hs).1 x h)

/-- Reversing a strictly ascending list yields a strictly descending one. -/
theorem sorted_gt_reverse {l : List ℤ} (hs : l.Sorted (· < ·)) :
    l.reverse.Sorted (fun a b => b < a) :=
  (List.pairwise_reverse).mpr hs

/-- Every element of a strictly ascending series is at most `latest_date`. -/
theorem le_latest_date (s : List (ℤ × ℚ)) (hs : (s.map Prod.fst).Sorted (· < ·)) :
    ∀ d ∈ s.map Prod.fst, d ≤ latest_date s := by
  intro d hd
  have hrev : (s.reverse).map Prod.fst = (s.map Prod.fst).reverse := by
    simp [List.map_reverse]
  have hmem : d ∈ (s.map Prod.fst).reverse := List.mem_reverse.mpr hd
  have := le_headI_of_sorted_gt (sorted_gt_reverse hs) d hmem
  simpa [latest_date, hrev] using this

/-! ## Claims -/

/-- C2: for every input series with fewer than 2 points (length 0 or 1) and
any horizon, `fit_trend_line` signals the error result (`None` quadruple,
modelled `none`) and `forecast_values` likewise yields no numeric output. -/
theorem C2_fit_error_below_two_points (dates : List ℤ) (values : List ℚ) (fd : ℕ)
    (hshort : dates.length < 2) :
    fit_trend_line dates values fd = none ∧ forecast_values dates values fd = none := by
  have hfit : fit_trend_line dates values fd = none := by
    unfold fit_trend_line polyfit1
    rw [if_neg]
    rintro ⟨-, h2⟩
    exact absurd h2 (not_le.mpr hshort)
  exact ⟨hfit, by simp [forecast_values, hfit]⟩

/-- Witness for C2 at the concrete one-point input. -/
theorem C2_fit_error_below_two_points_witness :
    ([(0 : ℤ)].length < 2) ∧
      (fit_trend_line [(0 : ℤ)] [(3 : ℚ)] 5 = none ∧
        forecast_values [(0 : ℤ)] [(3 : ℚ)] 5 = none) :=
  ⟨by decide, C2_fit_error_below_two_points [(0 : ℤ)] [(3 : ℚ)] 5 (by decide)⟩

/-- C3: on the perfectly linear input `[1,2,3,4,5]` with horizon 3, the
fitted line reproduces `[1,2,3,4,5]` exactly and the exposed forecast values
are `[6,7,8]` (the rational computation is exact; the float one agrees to
within tolerance). -/
theorem C3_linear_example :
    (fit_trend_line [0, 1, 2, 3, 4] [1, 2, 3, 4, 5] 3).map FitResult.trend_line
        = some [1, 2, 3, 4, 5] ∧
      forecast_values [0, 1, 2, 3, 4] [1, 2, 3, 4, 5] 3 = some [6, 7, 8] := by
  have hs : ols_slope 5 [1, 2, 3, 4, 5] = 1 := by
    norm_num [ols_slope, List.range_succ]
  have hi : ols_intercept 5 [1, 2, 3, 4, 5] = 1 := by
    norm_num [ols_intercept, hs, List.range_succ]
  have hfit := fit_trend_line_spec [0, 1, 2, 3, 4] [1, 2, 3, 4, 5] 3 rfl (by norm_num)
  constructor
  · rw [hfit]
    simp only [List.length_cons, List.length_nil, Option.map_some]
    norm_num [List.range_succ, polyval, hs, hi]
  · rw [forecast_values, hfit]
    simp only [List.length_cons, List.length_nil, Option.map_some]
    norm_num [tail_slice, List.range_succ, polyval, hs, hi]

/-- C5: `fetch_data` is a total function of the provider response (the
`except` branch converts every raised error into an empty series, so no
exception reaches the caller), and both a provider error and an empty
provider frame yield the empty series — the only failure signal callers
see. -/
theorem C5_fetch_errors_to_empty (e : String) :
    fetch_data (ProviderResult.err e) = [] ∧ fetch_data (ProviderResult.ok []) = [] := by
  constructor
  · rfl
  · simp [fetch_data]

/-- C6: when the trend fit fails, the pipeline does not halt: the chart of
the actual series is still rendered, the trend overlay and forecast are
omitted, and a warning is shown instead of an error stop. -/
theorem C6_graceful_fit_failure (dates : List ℤ) (values : List ℚ) (fd : ℕ)
    (hfail : fit_trend_line dates values fd = none) :
    (render_plot dates values fd).chart_rendered = true ∧
      (render_plot dates values fd).trend_plotted = false ∧
      (render_plot dates values fd).warning_shown = true ∧
      (render_plot dates values fd).halted = false ∧
      (render_plot dates values fd).forecast_shown = false := by
  simp [render_plot, hfail]

/-- Witness for C6 at a concrete failing input (a single observed point). -/
theorem C6_graceful_fit_failure_witness :
    (fit_trend_line [(0 : ℤ)] [(1 : ℚ)] 1 = none) ∧
      ((render_plot [(0 : ℤ)] [(1 : ℚ)] 1).chart_rendered = true ∧
        (render_plot [(0 : ℤ)] [(1 : ℚ)] 1).trend_plotted = false ∧
        (render_plot [(0 : ℤ)] [(1 : ℚ)] 1).warning_shown = true ∧
        (render_plot [(0 : ℤ)] [(1 : ℚ)] 1).halted = false ∧
        (render_plot [(0 : ℤ)] [(1 : ℚ)] 1).forecast_shown = false) :=
  ⟨by decide, C6_graceful_fit_failure [(0 : ℤ)] [(1 : ℚ)] 1 (by decide)⟩

/-- C8 counterexample: the dummy generator reads the ambient (unseeded)
global RNG, so two runs with the same requested length but different RNG
states produce different series — the claimed run-to-run determinism fails. -/
theorem C8_dummy_not_deterministic :
    generate_dummy_data 1 0 (fun _ => 0) ≠ generate_dummy_data 1 0 (fun _ => 1) := by
  decide

/-- C8 amended: selecting dummy data bypasses fetching entirely (the
provider response is never consulted) and yields exactly `days` points; but
the values come from the ambient RNG state, not from the length alone. -/
theorem C8_dummy_bypass_and_length (days : ℕ) (now : ℤ) (rng : ℕ → ℚ)
    (p q : ProviderResult) :
    prepare_data true days now rng p = generate_dummy_data days now rng ∧
      prepare_data true days now rng p = prepare_data true days now rng q ∧
      (prepare_data true days now rng p).length = days := by
  refine ⟨rfl, rfl, ?_⟩
  simp [prepare_data, generate_dummy_data]

/-- The slice `trend_future[-fd:]` of the line evaluated on `0 .. n+fd-1` is
the line evaluated on `n .. n+fd-1`. -/
theorem tail_slice_range_map (c : ℚ × ℚ) (n fd : ℕ) (h1 : 1 ≤ fd) :
    tail_slice ((List.range (n + fd)).map (fun (i : ℕ) => polyval c (i : ℚ))) fd
      = (List.range fd).map (fun (i : ℕ) => polyval c ((n + i : ℕ) : ℚ)) := by
  unfold tail_slice
  rw [if_neg (by omega)]
  have hlen : ((List.range (n + fd)).map (fun (i : ℕ) => polyval c (i : ℚ))).length = n + fd := by
    simp
  rw [hlen]
  have hnd : n + fd - fd = n := by omega
  rw [hnd, List.range_add, List.map_append, List.drop_left' (by simp), List.map_map]
  rfl

/-- The tail slice keeps exactly `k` elements when `1 ≤ k ≤ l.length`. -/
theorem tail_slice_length (l : List ℚ) (k : ℕ) (h1 : 1 ≤ k) (hk : k ≤ l.length) :
    (tail_slice l k).length = k := by
  unfold tail_slice
  rw [if_neg (by omega)]
  simp
  omega

/-- C1: for every series of length `n ≥ 2` and horizon `fd ≥ 1`, the
forecast values exposed by the trend-fit routine (via `forecast_df`'s slice
of `trend_future`) are exactly the regression line evaluated at positions
`n .. n+fd-1` — a sequence of exactly `fd` values at positions strictly
beyond the observed range `0 .. n-1`. -/
theorem C1_forecast_positions (dates : List ℤ) (values : List ℚ) (fd : ℕ)
    (hlen : dates.length = values.length) (h2 : 2 ≤ dates.length) (h1 : 1 ≤ fd) :
    forecast_values dates values fd
        = some ((List.range fd).map (fun (i : ℕ) =>
            polyval (ols_slope dates.length values, ols_intercept dates.length values)
              ((dates.length + i : ℕ) : ℚ))) ∧
      ∀ l, forecast_values dates values fd = some l → l.length = fd := by
  have hmain : forecast_values dates values fd
      = some ((List.range fd).map (fun (i : ℕ) =>
          polyval (ols_slope dates.length values, ols_intercept dates.length values)
            ((dates.length + i : ℕ) : ℚ))) := by
    rw [forecast_values, fit_trend_line_spec dates values fd hlen h2]
    rw [Option.map_some']
    rw [tail_slice_range_map _ _ _ h1]
  refine ⟨hmain, ?_⟩
  intro l hl
  rw [hmain, Option.some.injEq] at hl
  subst hl
  simp

/-- Witness for C1 at a concrete two-point series with horizon 2. -/
theorem C1_forecast_positions_witness :
    (forecast_values [0, 1] [3, 4] 2).isSome = true := by
  rw [(C1_forecast_positions [0, 1] [3, 4] 2 rfl (by norm_num) (by norm_num)).1]
  rfl

/-- On a series of length at least 2, `combined_df` produces the reversed
actual rows followed by the forecast rows built by zipping `future_dates`
with the slice of `trend_future`. -/
theorem combined_df_eq (s : List (ℤ × ℚ)) (fd : ℕ) (h2 : 2 ≤ s.length) :
    combined_df s fd = some
      ((s.reverse.map (fun p => Row.mk p.1 p.2 RowType.Actual))
        ++ (((future_dates (s.reverse.map Prod.fst) fd).zip
              (tail_slice ((List.range ((s.reverse.map Prod.fst).length + fd)).map
                (fun (i : ℕ) => polyval
                  (ols_slope (s.reverse.map Prod.fst).length (s.reverse.map Prod.snd),
                    ols_intercept (s.reverse.map Prod.fst).length (s.reverse.map Prod.snd))
                  (i : ℚ))) fd)).map
            (fun p => Row.mk p.1 p.2 RowType.Forecast))) := by
  have hfit := fit_trend_line_spec (s.reverse.map Prod.fst) (s.reverse.map Prod.snd) fd
    (by simp) (by simpa using h2)
  unfold combined_df
  rw [hfit]

/-- Structural facts about a row list of the shape built by `combined_df`:
lengths, the Actual prefix, the Forecast tail and its consecutive dates. -/
theorem rows_structure (s : List (ℤ × ℚ)) (fd : ℕ) (fvals : List ℚ) (rows : List Row)
    (hfl : fvals.length = fd)
    (hrows : rows = (s.reverse.map (fun p => Row.mk p.1 p.2 RowType.Actual))
      ++ (((future_dates (s.reverse.map Prod.fst) fd).zip fvals).map
          (fun p => Row.mk p.1 p.2 RowType.Forecast)))
    (hs : (s.map Prod.fst).Sorted (· < ·)) :
    rows.length = s.length + fd ∧
      rows.take s.length = s.reverse.map (fun p => Row.mk p.1 p.2 RowType.Actual) ∧
      (∀ r ∈ rows.take s.length, r.type = RowType.Actual) ∧
      (∀ r ∈ rows.drop s.length, r.type = RowType.Forecast) ∧
      (rows.drop s.length).map Row.date
        = (List.range fd).map (fun (i : ℕ) => latest_date s + ((i : ℤ) + 1)) ∧
      (∀ d ∈ s.map Prod.fst, d ≤ latest_date s) := by
  subst hrows
  have hfdl : (future_dates (s.reverse.map Prod.fst) fd).length = fd := by
    simp [future_dates]
  have hal : (s.reverse.map (fun p => Row.mk p.1 p.2 RowType.Actual)).length = s.length := by
    simp
  have hzl : ((future_dates (s.reverse.map Prod.fst) fd).zip fvals).length = fd := by
    rw [List.length_zip, hfdl, hfl, min_self]
  refine ⟨?_, ?_, ?_, ?_, ?_, ?_⟩
  · rw [List.length_append, hal, List.length_map, hzl]
  · exact List.take_left' hal
  · rw [List.take_left' hal]
    intro r hr
    rw [List.mem_map] at hr
    obtain ⟨p, -, rfl⟩ := hr
    rfl
  · rw [List.drop_left' hal]
    intro r hr
    rw [List.mem_map] at hr
    obtain ⟨p, -, rfl⟩ := hr
    rfl
  · rw [List.drop_left' hal, List.map_map]
    have hcomp : (Row.date ∘ fun p : ℤ × ℚ => Row.mk p.1 p.2 RowType.Forecast) = Prod.fst :=
      rfl
    rw [hcomp, List.map_fst_zip _ _ (by rw [hfdl, hfl])]
    rfl
  · exact le_latest_date s hs

/-- C4: for a strictly ascending actual series of length `n ≥ 2` and a
horizon `fd ≥ 1`, the combined table has exactly `n + fd` rows: first the
`n` actual observations tagged Actual, then `fd` rows tagged Forecast whose
timestamps are the consecutive calendar days `latest+1, ..., latest+fd`
after the most recent actual timestamp, in ascending order. -/
theorem C4_combined_structure (s : List (ℤ × ℚ)) (fd : ℕ)
    (h1 : 1 ≤ fd) (h2 : 2 ≤ s.length) (hs : (s.map Prod.fst).Sorted (· < ·)) :
    ∃ rows, combined_df s fd = some rows ∧
      rows.length = s.length + fd ∧
      rows.take s.length = s.reverse.map (fun p => Row.mk p.1 p.2 RowType.Actual) ∧
      (∀ r ∈ rows.take s.length, r.type = RowType.Actual) ∧
      (∀ r ∈ rows.drop s.length, r.type = RowType.Forecast) ∧
      (rows.drop s.length).map Row.date
        = (List.range fd).map (fun (i : ℕ) => latest_date s + ((i : ℤ) + 1)) ∧
      (∀ d ∈ s.map Prod.fst, d ≤ latest_date s) := by
  refine ⟨_, combined_df_eq s fd h2, rows_structure s fd _ _ ?_ rfl hs⟩
  refine tail_slice_length _ fd h1 ?_
  simp only [List.length_map, List.length_range]
  omega

/-- Witness for C4: a two-day series with horizon 1 yields three rows. -/
theorem C4_combined_structure_witness :
    ∃ rows, combined_df [((0 : ℤ), (10 : ℚ)), (1, 20)] 1 = some rows ∧
      rows.length = 3 := by
  obtain ⟨rows, hcd, hlen, -⟩ :=
    C4_combined_structure [((0 : ℤ), (10 : ℚ)), (1, 20)] 1 (by norm_num) (by norm_num)
      (by norm_num [List.sorted_cons])
  exact ⟨rows, hcd, hlen⟩

/-- Head membership for nonempty lists of timestamps. -/
theorem headI_mem_of_ne_nil {l : List ℤ} (h : l ≠ []) : l.headI ∈ l := by
  cases l with
  | nil => exact absurd rfl h
  | cons a t => exact List.mem_cons_self a t

/-- C7 counterexample: `highlight_latest` unconditionally selects the row at
position 0. On an ascending index `[1, 2]` the most recent date is `2`, yet
the row with date `2` is not highlighted while the row with date `1` is —
refuting the claim that whichever end holds the most recent date gets
selected. -/
theorem C7_position_zero_counterexample :
    highlight_latest [1, 2] 1 = true ∧ highlight_latest [1, 2] 2 = false ∧ (1 : ℤ) < 2 := by
  decide

/-- C7 amended: `highlight_latest` selects exactly the row whose timestamp
is `df.index[0]`; because the pipeline unconditionally reverses the series
to descending date order, that selected timestamp is precisely the most
recent one. -/
theorem C7_highlight_on_descending (index : List ℤ) (hne : index ≠ [])
    (hs : index.Sorted (fun a b => b < a)) :
    ∀ d ∈ index, (highlight_latest index d = true ↔ ∀ e ∈ index, e ≤ d) := by
  intro d hd
  constructor
  · intro h e he
    have hdh : d = index.headI := by
      simpa [highlight_latest] using h
    exact hdh ▸ le_headI_of_sorted_gt hs e he
  · intro h
    have hle : d ≤ index.headI := le_headI_of_sorted_gt hs d hd
    have hge : index.headI ≤ d := h index.headI (headI_mem_of_ne_nil hne)
    simp [highlight_latest, le_antisymm hle hge]

/-- Witness for the amended C7 on the descending index `[5, 3]`. -/
theorem C7_highlight_on_descending_witness :
    highlight_latest [5, 3] 5 = true :=
  (C7_highlight_on_descending [5, 3] (by decide) (by norm_num [List.sorted_cons]) 5
    (by decide)).mpr (by decide)

/-- The fold `vs.foldr min v` is a lower bound of `v :: vs`. -/
theorem foldr_min_le (v : ℚ) (vs : List ℚ) : ∀ x ∈ v :: vs, vs.foldr min v ≤ x := by
  induction vs with
  | nil =>
      intro x hx
      rw [List.mem_singleton] at hx
      exact le_of_eq (hx ▸ rfl)
  | cons a t ih =>
      intro x hx
      rcases List.mem_cons.mp hx with rfl | hx
      · exact le_trans (min_le_right _ _) (ih x (List.mem_cons_self x t))
      · rcases List.mem_cons.mp hx with rfl | hx
        · exact min_le_left _ _
        · exact le_trans (min_le_right _ _) (ih x (List.mem_cons_of_mem _ hx))

/-- The fold `vs.foldr max v` is an upper bound of `v :: vs`. -/
theorem le_foldr_max (v : ℚ) (vs : List ℚ) : ∀ x ∈ v :: vs, x ≤ vs.foldr max v := by
  induction vs with
  | nil =>
      intro x hx
      rw [List.mem_singleton] at hx
      exact le_of_eq (hx ▸ rfl)
  | cons a t ih =>
      intro x hx
      rcases List.mem_cons.mp hx with rfl | hx
      · exact le_trans (ih x (List.mem_cons_self x t)) (le_max_right _ _)
      · rcases List.mem_cons.mp hx with rfl | hx
        · exact le_max_left _ _
        · exact le_trans (ih x (List.mem_cons_of_mem _ hx)) (le_max_right _ _)

/-- The fold `vs.foldr min v` is attained in `v :: vs`. -/
theorem foldr_min_mem (v : ℚ) (vs : List ℚ) : vs.foldr min v ∈ v :: vs := by
  induction vs with
  | nil => exact List.mem_singleton.mpr rfl
  | cons a t ih =>
      rcases min_choice a (t.foldr min v) with h | h
      · rw [List.foldr_cons, h]
        exact List.mem_cons_of_mem _ (List.mem_cons_self a t)
      · rw [List.foldr_cons, h]
        rcases List.mem_cons.mp ih with hv | hv
        · rw [hv]
          exact List.mem_cons_self v (a :: t)
        · exact List.mem_cons_of_mem _ (List.mem_cons_of_mem _ hv)

/-- The fold `vs.foldr max v` is attained in `v :: vs`. -/
theorem foldr_max_mem (v : ℚ) (vs : List ℚ) : vs.foldr max v ∈ v :: vs := by
  induction vs with
  | nil => exact List.mem_singleton.mpr rfl
  | cons a t ih =>
      rcases max_choice a (t.foldr max v) with h | h
      · rw [List.foldr_cons, h]
        exact List.mem_cons_of_mem _ (List.mem_cons_self a t)
      · rw [List.foldr_cons, h]
        rcases List.mem_cons.mp ih with hv | hv
        · rw [hv]
          exact List.mem_cons_self v (a :: t)
        · exact List.mem_cons_of_mem _ (List.mem_cons_of_mem _ hv)

/-- C9: on a non-empty series the min-max rescale keeps every value in
[0,1]; when the maximum differs from the minimum, 0 and 1 are attained (by
the minimum and maximum respectively); on a flat series every output is 1/2;
the empty series is returned unchanged. -/
theorem C9_normalize_bounds (v : ℚ) (vs : List ℚ) :
    (∀ y ∈ normalize_series (v :: vs), 0 ≤ y ∧ y ≤ 1) ∧
      (vs.foldr max v ≠ vs.foldr min v →
        (0 : ℚ) ∈ normalize_series (v :: vs) ∧ (1 : ℚ) ∈ normalize_series (v :: vs)) ∧
      (vs.foldr max v = vs.foldr min v →
        ∀ y ∈ normalize_series (v :: vs), y = 1 / 2) ∧
      normalize_series ([] : List ℚ) = [] := by
  have hunfold : normalize_series (v :: vs)
      = if vs.foldr max v = vs.foldr min v
        then (v :: vs).map (fun _ => (1 : ℚ) / 2)
        else (v :: vs).map (fun x => (x - vs.foldr min v) / (vs.foldr max v - vs.foldr min v)) :=
    rfl
  by_cases hMm : vs.foldr max v = vs.foldr min v
  · refine ⟨?_, fun h => absurd hMm h, fun _ y hy => ?_, rfl⟩
    · intro y hy
      rw [hunfold, if_pos hMm, List.mem_map] at hy
      obtain ⟨x, -, rfl⟩ := hy
      norm_num
    · rw [hunfold, if_pos hMm, List.mem_map] at hy
      obtain ⟨x, -, rfl⟩ := hy
      rfl
  · have hlt : vs.foldr min v < vs.foldr max v :=
      lt_of_le_of_ne
        (le_trans (foldr_min_le v vs v (List.mem_cons_self v vs))
          (le_foldr_max v vs v (List.mem_cons_self v vs)))
        (Ne.symm hMm)
    have hpos : 0 < vs.foldr max v - vs.foldr min v := sub_pos.mpr hlt
    refine ⟨?_, fun _ => ⟨?_, ?_⟩, fun h => absurd h hMm, rfl⟩
    · intro y hy
      rw [hunfold, if_neg hMm, List.mem_map] at hy
      obtain ⟨x, hx, rfl⟩ := hy
      constructor
      · exact div_nonneg (sub_nonneg.mpr (foldr_min_le v vs x hx)) (le_of_lt hpos)
      · exact (div_le_one hpos).mpr (sub_le_sub_right (le_foldr_max v vs x hx) _)
    · rw [hunfold, if_neg hMm, List.mem_map]
      refine ⟨vs.foldr min v, foldr_min_mem v vs, ?_⟩
      rw [sub_self, zero_div]
    · rw [hunfold, if_neg hMm, List.mem_map]
      refine ⟨vs.foldr max v, foldr_max_mem v vs, ?_⟩
      exact div_self (ne_of_gt hpos)

/-- Witness for C9 on the concrete series `[0, 1]` and the flat `[2, 2]`. -/
theorem C9_normalize_bounds_witness :
    ((0 : ℚ) ∈ normalize_series [0, 1] ∧ (1 : ℚ) ∈ normalize_series [0, 1]) ∧
      (∀ y ∈ normalize_series [2, 2], y = 1 / 2) := by
  constructor
  · exact (C9_normalize_bounds 0 [1]).2.1 (by norm_num)
  · intro y hy
    exact (C9_normalize_bounds 2 [2]).2.2.1 (by norm_num) y hy

/-- Prefix-and-head facts about a row list of the shape built by
`combined_df`: the Actual prefix is the reversed series, its dates descend
strictly, and the row at position 0 carries the most recent date. -/
theorem rows_head_structure (s : List (ℤ × ℚ)) (fd : ℕ) (fvals : List ℚ) (rows : List Row)
    (hrows : rows = (s.reverse.map (fun p => Row.mk p.1 p.2 RowType.Actual))
      ++ (((future_dates (s.reverse.map Prod.fst) fd).zip fvals).map
          (fun p => Row.mk p.1 p.2 RowType.Forecast)))
    (hne : s ≠ [])
    (hs : (s.map Prod.fst).Sorted (· < ·)) :
    rows.take s.length = s.reverse.map (fun p => Row.mk p.1 p.2 RowType.Actual) ∧
      ((rows.take s.length).map Row.date).Sorted (fun a b => b < a) ∧
      rows.headI.date = latest_date s ∧
      (∀ r ∈ rows.take s.length, r.date ≤ latest_date s) := by
  subst hrows
  have hal : (s.reverse.map (fun p => Row.mk p.1 p.2 RowType.Actual)).length = s.length := by
    simp
  have htake := @List.take_left' Row _
      (((future_dates (s.reverse.map Prod.fst) fd).zip fvals).map
        (fun p => Row.mk p.1 p.2 RowType.Forecast)) _ hal
  have hmapdate : ((((s.reverse.map (fun p => Row.mk p.1 p.2 RowType.Actual))
      ++ (((future_dates (s.reverse.map Prod.fst) fd).zip fvals).map
          (fun p => Row.mk p.1 p.2 RowType.Forecast))).take s.length).map Row.date)
      = (s.map Prod.fst).reverse := by
    rw [htake, List.map_map]
    have hcomp : (Row.date ∘ fun p : ℤ × ℚ => Row.mk p.1 p.2 RowType.Actual) = Prod.fst :=
      rfl
    rw [hcomp, List.map_reverse]
  have hnerev : s.reverse ≠ [] := by
    simpa using hne
  obtain ⟨q, t, hqt⟩ := List.exists_cons_of_ne_nil hnerev
  have hld : latest_date s = ((s.map Prod.fst).reverse).headI := by
    unfold latest_date
    rw [List.map_reverse]
  refine ⟨htake, ?_, ?_, ?_⟩
  · rw [hmapdate]
    exact sorted_gt_reverse hs
  · unfold latest_date
    rw [hqt]
    rfl
  · intro r hr
    have hdr : r.date ∈ (s.map Prod.fst).reverse := by
      rw [← hmapdate]
      exact List.mem_map_of_mem Row.date hr
    rw [hld]
    exact le_headI_of_sorted_gt (sorted_gt_reverse hs) _ hdr

/-- C10: the pipeline reverses the fetched series unconditionally, so the
actual rows of the combined table (also the preview frame and the exported
CSV) are in strictly descending date order, the row at position 0 carries
the most recent date `latest_date s`, and every actual date is at most that
date. -/
theorem C10_unconditional_reversal (s : List (ℤ × ℚ)) (fd : ℕ)
    (h1 : 1 ≤ fd) (h2 : 2 ≤ s.length) (hs : (s.map Prod.fst).Sorted (· < ·)) :
    ∃ rows, combined_df s fd = some rows ∧
      rows.take s.length = s.reverse.map (fun p => Row.mk p.1 p.2 RowType.Actual) ∧
      ((rows.take s.length).map Row.date).Sorted (fun a b => b < a) ∧
      rows.headI.date = latest_date s ∧
      (∀ r ∈ rows.take s.length, r.date ≤ latest_date s) := by
  refine ⟨_, combined_df_eq s fd h2, rows_head_structure s fd _ _ rfl ?_ hs⟩
  intro h
  rw [h] at h2
  exact absurd h2 (by norm_num)

/-- Witness for C10 on a concrete ascending two-day series. -/
theorem C10_unconditional_reversal_witness :
    ∃ rows, combined_df [((0 : ℤ), (10 : ℚ)), (1, 20)] 1 = some rows ∧
      rows.headI.date = latest_date [((0 : ℤ), (10 : ℚ)), (1, 20)] := by
  obtain ⟨rows, hcd, -, -, hhead, -⟩ :=
    C10_unconditional_reversal [((0 : ℤ), (10 : ℚ)), (1, 20)] 1 (by norm_num) (by norm_num)
      (by norm_num [List.sorted_cons])
  exact ⟨rows, hcd, hhead⟩
